import Mathlib

/-!
A verification development for the comlin line-editing library
(`src/comlin.c`).  The C code is shallowly embedded: buffers are lists of
byte values (`Nat`, 0..255) together with the tracked `length`/`size`
fields of the C `StringBuf`; terminal output is a list of output items
(one item per `buf_append`/`buf_append_vtesc` call building the batched
update); the input file descriptor is a list of bytes consumed from the
front.  `realloc`/`malloc` and `tcsetattr` are modelled as succeeding
(memory exhaustion and terminal-driver failure are outside the model);
`write` is modelled as succeeding, with the written bytes/items returned.
The C `char` type is modelled as signed (range -128..127), as it is on
the common platforms this code targets; `signedChar` performs the
byte-to-char conversion and `charToUnsigned` the `(unsigned)c` cast.
No completion callback is registered in the model (the completion branch
of `comlin_edit_feed` is disabled exactly as when
`l->completion_callback` is NULL).
-/

namespace Comlin

/-- Value of a byte reinterpreted as a (signed) C `char`, as on platforms
where `char` is signed. -/
def signedChar (b : Nat) : Int :=
  let r := b % 256
  if r < 128 then (r : Int) else (r : Int) - 256

/-- The C cast `(unsigned)c` applied to a `char` value. -/
def charToUnsigned (c : Int) : Nat :=
  ((c + 4294967296) % 4294967296).toNat

/-- Bytes of a C string read from a buffer: everything up to the first
NUL byte (what `strlen`/`strdup`/`strcmp` see). -/
def cstr (data : List Nat) : List Nat :=
  data.takeWhile (· ≠ 0)

/-- The `StringBuf` struct: an allocation of `size` bytes (`data` lists
them all) holding a string of length `length`. -/
structure StringBuf where
  data : List Nat
  length : Nat
  size : Nat
deriving DecidableEq, Repr

/-- Write the bytes of `src` into `dest` starting at offset `off`
(`memcpy(dest + off, src, src.length)`); bytes outside the allocation
are dropped, as `List.set` ignores out-of-range indices. -/
def writeBytes (dest : List Nat) (off : Nat) (src : List Nat) : List Nat :=
  match src with
  | [] => dest
  | c :: rest => writeBytes (dest.set off c) (off + 1) rest

/-- The C `memmove(data + dst, data + src, n)` on an allocation `data`:
the source region is read in full before being stored. -/
def memmove (data : List Nat) (dst src n : Nat) : List Nat :=
  writeBytes data dst ((data.drop src).take n)

/-- The C `buf_append`: grow the allocation if needed (realloc modelled
as succeeding; fresh bytes are 0), copy `s` after the current contents,
and NUL-terminate at the new length. -/
def buf_append (buf : StringBuf) (s : List Nat) : StringBuf :=
  let new_length := buf.length + s.length
  let needed_size := new_length + 1
  let grown :=
    if needed_size > buf.size then
      { data := buf.data ++ List.replicate (needed_size - buf.size) 0,
        length := buf.length, size := needed_size }
    else buf
  let data := writeBytes grown.data buf.length s
  { data := data.set new_length 0, length := new_length, size := grown.size }

/-- One item of a batched terminal update: either literal bytes appended
with `buf_append`, or an `ESC [ <n> <suffix>` sequence appended with
`buf_append_vtesc`. -/
inductive Item where
  | text (bytes : List Nat)
  | vtesc (n : Nat) (suffix : Char)
deriving DecidableEq, Repr

/-- The bytes `"\r"`. -/
def itemCR : Item := .text [13]

/-- The bytes `ESC [ 0 K` (erase to end of line). -/
def itemEL0 : Item := .text [27, 91, 48, 75]

/-- Status codes used by the edit functions of `comlin.c`. -/
inductive ComlinStatus where
  | success
  | editing
  | endOfInput
  | interrupted
  | badRead
  | badWrite
  | badTerminal
  | noFile
  | noMemory
deriving DecidableEq, Repr

/-- The fields of `ComlinStateImpl` that the editing engine manipulates
(file descriptors and the saved termios snapshot are capabilities outside
the model). -/
structure ComlinState where
  cols : Nat
  maskmode : Bool
  rawmode : Bool
  mlmode : Bool
  dumb : Bool
  history_max_len : Nat
  history : List (List Nat)
  buf : StringBuf
  prompt : List Nat
  plen : Nat
  pos : Nat
  history_index : Nat
  oldpos : Nat
  oldrows : Nat
deriving DecidableEq, Repr

/-- Result of an editing operation: the updated state, the terminal
output it wrote, and its status. -/
abbrev EditResult := ComlinState × List Item × ComlinStatus

def REFRESH_CLEAN : Nat := 1
def REFRESH_WRITE : Nat := 2
def REFRESH_ALL : Nat := 3

/-- The C `append_line_text`: the line's bytes, or one `*` (0x2A) per
byte when masked. -/
def append_line_text (text : List Nat) (length : Nat) (masked : Bool) : Item :=
  if masked then .text (List.replicate length 42) else .text (text.take length)

/-- The C `refresh_single_line`: slide the window so the cursor is on
screen, truncate to the row, and build the batched update.  The C
adjusts `buf`/`len`/`pos` inside the slide branch; here the slide
amount `offset` is 0 outside that branch, which leaves them unchanged
exactly as in the C. -/
def refresh_single_line (l : ComlinState) (flags : Nat) : List Item :=
  let offset := if l.plen + l.pos ≥ l.cols then l.plen + l.pos + 1 - l.cols else 0
  let bufView := l.buf.data.drop offset
  let len0 := l.buf.length - offset
  let pos := l.pos - offset
  let len := if l.plen + len0 > l.cols then l.cols - l.plen else len0
  [itemCR]
    ++ (if flags &&& REFRESH_WRITE ≠ 0 then
          [Item.text (l.prompt.take l.plen), append_line_text bufView len l.maskmode]
        else [])
    ++ [itemEL0]
    ++ (if flags &&& REFRESH_WRITE ≠ 0 then
          [itemCR, Item.vtesc (pos + l.plen) 'C']
        else [])

/-- The three items of one iteration of the clean loop of
`refresh_multi_line`: the 9-byte constant `"\r" ESC[0K ESC[1A`. -/
def cleanRow : List Item := [itemCR, itemEL0, Item.vtesc 1 'A']

/-- The C `refresh_multi_line`: clear the previously used rows, rewrite
the prompt and content, handle the autowrap corner, and move the cursor
to its row and column.  Returns the updated state (`oldrows`/`oldpos`
are written through) and the batched update.  The C computes `rows` by
`++rows` inside the write branch and then raises `l->oldrows` (just set
to the initial `rows`) to the incremented value; here that is folded
into the single conditional `rows`, which takes the same value in every
case. -/
def refresh_multi_line (l : ComlinState) (flags : Nat) : ComlinState × List Item :=
  let rpos := (l.plen + l.oldpos + l.cols) / l.cols
  let old_rows := l.oldrows
  let rows0 := (l.plen + l.buf.length + l.cols - 1) / l.cols
  let atWrapBoundary :=
    l.pos ≠ 0 ∧ l.pos = l.buf.length ∧ (l.pos + l.plen) % l.cols = 0
  let rows :=
    if flags &&& REFRESH_WRITE ≠ 0 ∧ atWrapBoundary then rows0 + 1 else rows0
  let cleanItems :=
    if flags &&& REFRESH_CLEAN ≠ 0 then
      (if old_rows > rpos then [Item.vtesc (old_rows - rpos) 'B'] else [])
        ++ (List.replicate (old_rows - 1) cleanRow).flatten
    else []
  let writeItems :=
    if flags &&& REFRESH_WRITE ≠ 0 then
      let base := [itemCR, Item.text (l.prompt.take l.plen),
                   append_line_text l.buf.data l.buf.length l.maskmode, itemEL0]
      let nlItems := if atWrapBoundary then [Item.text [10, 13]] else []
      let rpos2 := (l.plen + l.pos + l.cols) / l.cols
      let upItems := if rows > rpos2 then [Item.vtesc (rows - rpos2) 'A'] else []
      let col := (l.plen + l.pos) % l.cols
      let colItems := [itemCR] ++ (if col ≠ 0 then [Item.vtesc col 'C'] else [])
      base ++ nlItems ++ upItems ++ colItems
    else []
  ({ l with oldrows := rows, oldpos := l.pos }, cleanItems ++ writeItems)

/-- The C `refresh_line_with_flags`: dispatch on multi-line mode. -/
def refresh_line_with_flags (l : ComlinState) (flags : Nat) : ComlinState × List Item :=
  if l.mlmode then refresh_multi_line l flags else (l, refresh_single_line l flags)

/-- The C `comlin_edit_refresh`: a full (clean and write) refresh,
reporting `editing` on success. -/
def comlin_edit_refresh (l : ComlinState) : EditResult :=
  let r := refresh_line_with_flags l REFRESH_ALL
  (r.1, r.2, .editing)

/-- The C `comlin_edit_insert`: append at the end of the line (with the
single-character fast path) or shift the tail right and write `c` at the
cursor. -/
def comlin_edit_insert (l : ComlinState) (c : Nat) : EditResult :=
  if l.buf.length = l.pos then
    let l' := { l with buf := buf_append l.buf [c], pos := l.pos + 1 }
    if (l'.mlmode = false ∨ l'.oldrows ≤ 1) ∧ l'.plen + l'.buf.length < l'.cols then
      (l', [.text [if l'.maskmode then 42 else c]], .editing)
    else
      comlin_edit_refresh l'
  else
    let grown := buf_append l.buf [32]
    let data := memmove grown.data (l.pos + 1) l.pos (grown.length - l.pos)
    let l' := { l with buf := { grown with data := data.set l.pos c },
                       pos := l.pos + 1 }
    comlin_edit_refresh l'

/-- The C `comlin_edit_move_left`. -/
def comlin_edit_move_left (l : ComlinState) : EditResult :=
  if l.pos > 0 then comlin_edit_refresh { l with pos := l.pos - 1 }
  else (l, [], .editing)

/-- The C `comlin_edit_move_right`. -/
def comlin_edit_move_right (l : ComlinState) : EditResult :=
  if l.pos ≠ l.buf.length then comlin_edit_refresh { l with pos := l.pos + 1 }
  else (l, [], .editing)

/-- The C `comlin_edit_move_home`. -/
def comlin_edit_move_home (l : ComlinState) : EditResult :=
  if l.pos ≠ 0 then comlin_edit_refresh { l with pos := 0 }
  else (l, [], .editing)

/-- The C `comlin_edit_move_end`. -/
def comlin_edit_move_end (l : ComlinState) : EditResult :=
  if l.pos ≠ l.buf.length then comlin_edit_refresh { l with pos := l.buf.length }
  else (l, [], .editing)

/-- The C `comlin_edit_transpose`. -/
def comlin_edit_transpose (l : ComlinState) : EditResult :=
  if l.pos > 0 ∧ l.pos < l.buf.length then
    let a := l.buf.data.getD (l.pos - 1) 0
    let b := l.buf.data.getD l.pos 0
    let data := (l.buf.data.set (l.pos - 1) b).set l.pos a
    let pos := if l.pos ≠ l.buf.length - 1 then l.pos + 1 else l.pos
    comlin_edit_refresh { l with buf := { l.buf with data := data }, pos := pos }
  else (l, [], .editing)

inductive ComlinHistoryDirection where
  | next
  | prev
deriving DecidableEq, Repr

/-- The C `comlin_edit_history_step`: save the buffer into the entry the
user is leaving, move the index with clamping (clamped moves return
without redrawing), and replace the buffer with the entry now shown. -/
def comlin_edit_history_step (l : ComlinState) (dir : ComlinHistoryDirection) :
    EditResult :=
  if l.history.length > 1 then
    let hist := l.history.set (l.history.length - 1 - l.history_index)
                  (cstr l.buf.data)
    let l1 := { l with history := hist }
    if dir = .next ∧ l1.history_index = 0 then (l1, [], .editing)
    else
      let idx := if dir = .next then l1.history_index - 1 else l1.history_index + 1
      if idx ≥ l1.history.length then
        ({ l1 with history_index := l1.history.length - 1 }, [], .editing)
      else
        let entry := cstr (l1.history.getD (l1.history.length - 1 - idx) [])
        let pos := entry.length
        let grown := buf_append { l1.buf with length := 0 } entry
        comlin_edit_refresh
          { l1 with history_index := idx, pos := pos,
                    buf := { grown with data := grown.data.set pos 0 } }
  else (l, [], .editing)

/-- The C `comlin_edit_history_prev`. -/
def comlin_edit_history_prev (l : ComlinState) : EditResult :=
  comlin_edit_history_step l .prev

/-- The C `comlin_edit_history_next`. -/
def comlin_edit_history_next (l : ComlinState) : EditResult :=
  comlin_edit_history_step l .next

/-- The C `comlin_edit_history_pop`: drop the newest (live) entry and
reset the scroll index. -/
def comlin_edit_history_pop (l : ComlinState) : ComlinState :=
  { l with history := l.history.dropLast, history_index := 0 }

/-- The C `comlin_edit_delete`: remove the byte under the cursor. -/
def comlin_edit_delete (l : ComlinState) : EditResult :=
  if l.pos < l.buf.length then
    let data := memmove l.buf.data l.pos (l.pos + 1) (l.buf.length - l.pos - 1)
    let length := l.buf.length - 1
    comlin_edit_refresh
      { l with buf := { l.buf with data := data.set length 0, length := length } }
  else (l, [], .editing)

/-- The C `comlin_edit_interrupt`. -/
def comlin_edit_interrupt (l : ComlinState) : EditResult :=
  (l, [], .interrupted)

/-- The C `comlin_edit_eof`: end input on an empty buffer (popping the
live history entry), otherwise delete forward. -/
def comlin_edit_eof (l : ComlinState) : EditResult :=
  if l.buf.length = 0 then (comlin_edit_history_pop l, [], .endOfInput)
  else comlin_edit_delete l

/-- The C `comlin_edit_backspace`: remove the byte before the cursor. -/
def comlin_edit_backspace (l : ComlinState) : EditResult :=
  if l.pos ≠ 0 then
    let data := memmove l.buf.data (l.pos - 1) l.pos (l.buf.length - l.pos)
    let pos := l.pos - 1
    let length := l.buf.length - 1
    comlin_edit_refresh
      { l with buf := { l.buf with data := data.set length 0, length := length },
               pos := pos }
  else (l, [], .editing)

/-- Scan left from position `p` while the byte before the scan position
satisfies `cond` (the loops of `comlin_edit_delete_prev_word`). -/
def scanBackWhile (data : List Nat) (p : Nat) (cond : Nat → Bool) : Nat :=
  match p with
  | 0 => 0
  | q + 1 => if cond (data.getD q 0) then scanBackWhile data q cond else q + 1

/-- The C `comlin_edit_delete_prev_word`. -/
def comlin_edit_delete_prev_word (l : ComlinState) : EditResult :=
  let old_pos := l.pos
  let pos1 := scanBackWhile l.buf.data l.pos (· = 32)
  let pos := scanBackWhile l.buf.data pos1 (· ≠ 32)
  let diff := old_pos - pos
  let data := memmove l.buf.data pos old_pos (l.buf.length + 1 - old_pos)
  comlin_edit_refresh
    { l with buf := { l.buf with data := data, length := l.buf.length - diff },
             pos := pos }

/-- The bytes `ESC [ H ESC [ 2 J` written by `comlin_clear_screen`. -/
def clearScreenItem : Item := .text [27, 91, 72, 27, 91, 50, 74]

/-- The C `comlin_edit_clear_screen`. -/
def comlin_edit_clear_screen (l : ComlinState) : EditResult :=
  let r := comlin_edit_refresh l
  (r.1, clearScreenItem :: r.2.1, r.2.2)

/-- The C `comlin_edit_clear_line_backwards` (kill to start of line). -/
def comlin_edit_clear_line_backwards (l : ComlinState) : EditResult :=
  if l.pos > 0 then
    let new_length := l.buf.length - l.pos
    let data := memmove l.buf.data 0 l.pos (new_length + 1)
    comlin_edit_refresh
      { l with buf := { l.buf with data := data, length := new_length }, pos := 0 }
  else (l, [], .editing)

/-- The C `comlin_edit_clear_line_forwards` (kill to end of line). -/
def comlin_edit_clear_line_forwards (l : ComlinState) : EditResult :=
  if l.pos < l.buf.length then
    comlin_edit_refresh
      { l with buf := { l.buf with data := l.buf.data.set l.pos 0,
                                   length := l.pos } }
  else (l, [], .editing)

/-- The C `comlin_edit_submit`: pop the live history entry, move to the
end of the line in multi-line mode, and re-terminate the buffer. -/
def comlin_edit_submit (l : ComlinState) : EditResult :=
  let l1 := comlin_edit_history_pop l
  let r := if l1.mlmode then comlin_edit_move_end l1 else (l1, [], .editing)
  ({ r.1 with buf := { r.1.buf with data := r.1.buf.data.set r.1.buf.length 0 } },
   r.2.1, .success)

/-- The C `comlin_edit_stop`: leave raw mode if needed (`tcsetattr`
modelled as succeeding) and write a trailing newline.  Returns the new
state and the bytes written. -/
def comlin_edit_stop (l : ComlinState) : ComlinState × List Nat × ComlinStatus :=
  let l' := if l.rawmode then { l with rawmode := false } else l
  (l', [10], .success)

/-- The C `comlin_edit_read_dumb`: pass-through editing for unsupported
terminals. -/
def comlin_edit_read_dumb (l : ComlinState) (c : Nat) : EditResult :=
  if c = 3 then (l, [], .interrupted)
  else if c = 4 then (l, [], .endOfInput)
  else if c = 10 ∨ c = 13 then (l, [], .success)
  else ({ l with buf := buf_append l.buf [c] }, [.text [c]], .editing)

/-- The C `comlin_edit_read_escape`: consume two (or three) further
input bytes and dispatch the sequence.  Returns the edit result and the
remaining input. -/
def comlin_edit_read_escape (l : ComlinState) (input : List Nat) :
    EditResult × List Nat :=
  match input with
  | s0 :: s1 :: rest =>
    if s0 = 91 then
      if 48 ≤ s1 ∧ s1 ≤ 57 then
        match rest with
        | [] => ((l, [], .badRead), [])
        | s2 :: rest' =>
          if s1 = 51 ∧ s2 = 126 then (comlin_edit_delete l, rest')
          else ((l, [], .success), rest')
      else if s1 = 65 then (comlin_edit_history_prev l, rest)
      else if s1 = 66 then (comlin_edit_history_next l, rest)
      else if s1 = 67 then (comlin_edit_move_right l, rest)
      else if s1 = 68 then (comlin_edit_move_left l, rest)
      else if s1 = 72 then (comlin_edit_move_home l, rest)
      else if s1 = 70 then (comlin_edit_move_end l, rest)
      else ((l, [], .success), rest)
    else if s0 = 79 then
      if s1 = 72 then (comlin_edit_move_home l, rest)
      else if s1 = 70 then (comlin_edit_move_end l, rest)
      else ((l, [], .success), rest)
    else ((l, [], .success), rest)
  | _ => ((l, [], .badRead), [])

/-- The C `comlin_edit_control`: look the char up in the 32-entry
control-handler table.  `none` models the out-of-bounds table read that
happens when `(unsigned)c` is not below 32 (undefined behavior). -/
def comlin_edit_control (l : ComlinState) (c : Int) (input : List Nat) :
    Option (EditResult × List Nat) :=
  let idx := charToUnsigned c
  if idx < 32 then
    some (match idx with
      | 1 => (comlin_edit_move_home l, input)
      | 2 => (comlin_edit_move_left l, input)
      | 3 => (comlin_edit_interrupt l, input)
      | 4 => (comlin_edit_eof l, input)
      | 5 => (comlin_edit_move_end l, input)
      | 6 => (comlin_edit_move_right l, input)
      | 8 => (comlin_edit_backspace l, input)
      | 10 => (comlin_edit_submit l, input)
      | 11 => (comlin_edit_clear_line_forwards l, input)
      | 12 => (comlin_edit_clear_screen l, input)
      | 13 => (comlin_edit_submit l, input)
      | 14 => (comlin_edit_history_next l, input)
      | 16 => (comlin_edit_history_prev l, input)
      | 20 => (comlin_edit_transpose l, input)
      | 21 => (comlin_edit_clear_line_backwards l, input)
      | 23 => (comlin_edit_delete_prev_word l, input)
      | 27 => comlin_edit_read_escape l input
      | _ => ((l, [], .editing), input))
  else none

/-- The C `comlin_edit_feed` with no completion callback registered:
read one byte and dispatch it.  The input stream is the byte list; its
end models `read` returning 0.  `none` models the undefined behavior of
the out-of-bounds control-table read. -/
def comlin_edit_feed (l : ComlinState) (input : List Nat) :
    Option (ComlinState × List Item × ComlinStatus × List Nat) :=
  match input with
  | [] => some (l, [], .endOfInput, [])
  | b :: rest =>
    if l.dumb then
      let r := comlin_edit_read_dumb l (b % 256)
      some (r.1, r.2.1, r.2.2, rest)
    else
      let c := signedChar b
      if c < 32 then
        (comlin_edit_control l c rest).map
          (fun r => (r.1.1, r.1.2.1, r.1.2.2, r.2))
      else if b % 256 = 127 then
        let r := comlin_edit_backspace l
        some (r.1, r.2.1, r.2.2, rest)
      else
        let r := comlin_edit_insert l (b % 256)
        some (r.1, r.2.1, r.2.2, rest)

/-- The C `comlin_text` accessor: the NUL-terminated string at the start
of the buffer allocation. -/
def comlin_text (l : ComlinState) : List Nat :=
  cstr l.buf.data

/-- The C `comlin_history_add` on the history list (index 0 oldest):
no-op at `max_len` 0, duplicate suppression against the newest entry,
FIFO eviction at capacity.  `strdup` is modelled as succeeding. -/
def comlin_history_add (maxLen : Nat) (h : List (List Nat)) (line : List Nat) :
    List (List Nat) :=
  if maxLen = 0 then h
  else if h.getLast? = some line then h
  else (if h.length = maxLen then h.drop 1 else h) ++ [line]

/-- The bytes `comlin_history_save` writes to the file: each entry
followed by a newline, with empty entries written not at all. -/
def comlin_history_save (h : List (List Nat)) : List Nat :=
  (h.map (fun e => if e.length ≠ 0 then e ++ [10] else [])).flatten

/-- The loop of `comlin_history_load` over the file's bytes: a newline
ends a nonempty accumulated line and feeds it through
`comlin_history_add`; bytes that are printable as signed chars
(0x20..0x7E) are accumulated; everything else is dropped.  A trailing
partial line is discarded at end of file. -/
def comlin_history_load_loop (maxLen : Nat) (h : List (List Nat))
    (buf : List Nat) (bytes : List Nat) : List (List Nat) :=
  match bytes with
  | [] => h
  | c :: rest =>
    if c = 10 ∧ buf ≠ [] then
      comlin_history_load_loop maxLen (comlin_history_add maxLen h buf) [] rest
    else if 32 ≤ signedChar c ∧ c % 256 ≠ 127 then
      comlin_history_load_loop maxLen h (buf ++ [c]) rest
    else
      comlin_history_load_loop maxLen h buf rest

/-- The C `comlin_history_load` into a session whose history is `h`
(fresh sessions pass `[]`), reading the given file bytes. -/
def comlin_history_load (maxLen : Nat) (h : List (List Nat)) (bytes : List Nat) :
    List (List Nat) :=
  comlin_history_load_loop maxLen h [] bytes

/-- Ceiling division written the way the spec states the row formula:
`ceil(a / b)`. -/
def ceilDiv (a b : Nat) : Nat :=
  a / b + (if a % b = 0 then 0 else 1)

/-- Total cursor-up movement in a batched update: the sum of the counts
of its `ESC [ n A` items. -/
def upTotal (items : List Item) : Nat :=
  (items.map (fun it => match it with
    | .vtesc n s => if s = 'A' then n else 0
    | _ => 0)).sum

/-- The three line-buffer edit operations of claim C1. -/
inductive EditOp where
  | insert (c : Nat)
  | backspace
  | delete
deriving DecidableEq, Repr

/-- Apply one edit operation, keeping the resulting state. -/
def applyEditOp (l : ComlinState) (op : EditOp) : ComlinState :=
  match op with
  | .insert c => (comlin_edit_insert l c).1
  | .backspace => (comlin_edit_backspace l).1
  | .delete => (comlin_edit_delete l).1

/-- Run a sequence of edit operations. -/
def runEditOps (l : ComlinState) (ops : List EditOp) : ComlinState :=
  ops.foldl applyEditOp l

/-- Well-formedness of a `StringBuf`: the string (with its terminator)
fits in the allocation, and the allocation really has `size` bytes. -/
def SWf (b : StringBuf) : Prop :=
  b.length < b.size ∧ b.data.length = b.size

/-- The line-buffer invariant of claim C1: the cursor is within the
line, and the line (as the stronger `SWf`) fits its allocation. -/
def BufWf (l : ComlinState) : Prop :=
  l.pos ≤ l.buf.length ∧ SWf l.buf

instance : DecidablePred SWf := fun b =>
  inferInstanceAs (Decidable (b.length < b.size ∧ b.data.length = b.size))

instance : DecidablePred BufWf := fun l =>
  inferInstanceAs (Decidable (l.pos ≤ l.buf.length ∧ SWf l.buf))

/-- An entry that survives the history file format: nonempty, made of
bytes that are printable as signed chars (0x20..0x7E). -/
def CleanEntry (e : List Nat) : Prop :=
  e ≠ [] ∧ ∀ c ∈ e, 32 ≤ c ∧ c < 127

instance : DecidablePred CleanEntry := fun e =>
  inferInstanceAs (Decidable (e ≠ [] ∧ ∀ c ∈ e, 32 ≤ c ∧ c < 127))

/-- An empty 8-byte line buffer as `comlin_edit_start` allocates one. -/
def emptyBuf8 : StringBuf :=
  { data := List.replicate 8 0, length := 0, size := 8 }

/-- A plain session in normal (non-dumb) single-line mode, as after
`comlin_edit_start` with an empty prompt on an 80-column terminal. -/
def sampleBase : ComlinState :=
  { cols := 80, maskmode := false, rawmode := true, mlmode := false, dumb := false,
    history_max_len := 100, history := [], buf := emptyBuf8, prompt := [], plen := 0,
    pos := 0, history_index := 0, oldpos := 0, oldrows := 0 }

/-- Buffer holding `"ab"` with the cursor between the two bytes. -/
def midInsertState : ComlinState :=
  { sampleBase with buf := { data := [97, 98, 0, 0], length := 2, size := 4 },
                    pos := 1 }

/-- Session in multi-line mode on 4 columns whose buffer holds `"ab"`
with the cursor at offset 0. -/
def mlRowState : ComlinState :=
  { sampleBase with mlmode := true, cols := 4,
                    buf := { data := [97, 98, 0, 0], length := 2, size := 4 } }

/-- Session with history `["a"]` plus the live bottom entry `""`. -/
def liveHistState : ComlinState :=
  { sampleBase with history := [[97], []] }

/-- Session with history `["a","b","c"]` plus the live bottom entry
`""`, as in scenario C of the spec. -/
def scenCState : ComlinState :=
  { sampleBase with history := [[97], [98], [99], []] }

/-- Scenario C after one history-previous. -/
def scenC1 : ComlinState := (comlin_edit_history_step scenCState .prev).1

/-- Scenario C after two history-previous. -/
def scenC2 : ComlinState := (comlin_edit_history_step scenC1 .prev).1

/-- Scenario C after two history-previous and one history-next. -/
def scenC3 : ComlinState := (comlin_edit_history_step scenC2 .next).1

/-! ### Infrastructure lemmas about the buffer model -/

lemma writeBytes_length (src : List Nat) (dest : List Nat) (off : Nat) :
    (writeBytes dest off src).length = dest.length := by
  induction src generalizing dest off with
  | nil => rfl
  | cons c rest ih => simp [writeBytes, ih]

lemma memmove_length (data : List Nat) (dst src n : Nat) :
    (memmove data dst src n).length = data.length := by
  simp [memmove, writeBytes_length]

lemma buf_append_length (b : StringBuf) (s : List Nat) :
    (buf_append b s).length = b.length + s.length := rfl

lemma buf_append_size (b : StringBuf) (s : List Nat) :
    (buf_append b s).size
      = if b.length + s.length + 1 > b.size then b.length + s.length + 1
        else b.size := by
  unfold buf_append
  dsimp only
  split <;> simp_all

lemma buf_append_size_le (b : StringBuf) (s : List Nat) :
    b.size ≤ (buf_append b s).size := by
  rw [buf_append_size]
  split <;> omega

lemma buf_append_data_length (b : StringBuf) (s : List Nat)
    (h : b.data.length = b.size) :
    (buf_append b s).data.length = (buf_append b s).size := by
  unfold buf_append
  dsimp only
  split
  · simp_all [writeBytes_length]
    omega
  · simp_all [writeBytes_length]

lemma buf_append_wf (b : StringBuf) (s : List Nat) (h : SWf b) :
    SWf (buf_append b s) := by
  refine ⟨?_, buf_append_data_length b s h.2⟩
  rw [buf_append_length, buf_append_size]
  split <;> omega

@[simp] lemma refresh_multi_line_buf (l : ComlinState) (flags : Nat) :
    (refresh_multi_line l flags).1.buf = l.buf := rfl

@[simp] lemma refresh_multi_line_pos (l : ComlinState) (flags : Nat) :
    (refresh_multi_line l flags).1.pos = l.pos := rfl

@[simp] lemma refresh_multi_line_history (l : ComlinState) (flags : Nat) :
    (refresh_multi_line l flags).1.history = l.history := rfl

@[simp] lemma refresh_multi_line_history_index (l : ComlinState) (flags : Nat) :
    (refresh_multi_line l flags).1.history_index = l.history_index := rfl

@[simp] lemma comlin_edit_refresh_buf (l : ComlinState) :
    (comlin_edit_refresh l).1.buf = l.buf := by
  by_cases h : l.mlmode <;>
    simp [comlin_edit_refresh, refresh_line_with_flags, h]

@[simp] lemma comlin_edit_refresh_pos (l : ComlinState) :
    (comlin_edit_refresh l).1.pos = l.pos := by
  by_cases h : l.mlmode <;>
    simp [comlin_edit_refresh, refresh_line_with_flags, h]

@[simp] lemma comlin_edit_refresh_history (l : ComlinState) :
    (comlin_edit_refresh l).1.history = l.history := by
  by_cases h : l.mlmode <;>
    simp [comlin_edit_refresh, refresh_line_with_flags, h]

@[simp] lemma comlin_edit_refresh_history_index (l : ComlinState) :
    (comlin_edit_refresh l).1.history_index = l.history_index := by
  by_cases h : l.mlmode <;>
    simp [comlin_edit_refresh, refresh_line_with_flags, h]

@[simp] lemma comlin_edit_refresh_status (l : ComlinState) :
    (comlin_edit_refresh l).2.2 = .editing := rfl

/-! ### Preservation of the line-buffer invariant (claim C1) -/

lemma comlin_edit_insert_wf (l : ComlinState) (c : Nat) (h : BufWf l) :
    BufWf (comlin_edit_insert l c).1 ∧
      l.buf.size ≤ (comlin_edit_insert l c).1.buf.size := by
  obtain ⟨hpos, hwf⟩ := h
  unfold comlin_edit_insert
  split
  · -- insert at the end of the line
    obtain ⟨ha1, ha2⟩ := buf_append_wf l.buf [c] hwf
    have hsz := buf_append_size_le l.buf [c]
    have hlen : (buf_append l.buf [c]).length = l.buf.length + 1 := by
      simpa using buf_append_length l.buf [c]
    dsimp only
    split
    · refine ⟨⟨?_, ?_, ?_⟩, ?_⟩
      · simp only [hlen]
        omega
      · exact ha1
      · exact ha2
      · exact hsz
    · refine ⟨⟨?_, ?_, ?_⟩, ?_⟩
      · simp only [comlin_edit_refresh_pos, comlin_edit_refresh_buf, hlen]
        omega
      · simpa using ha1
      · simpa using ha2
      · simpa using hsz
  · -- insert in the middle of the line
    obtain ⟨ha1, ha2⟩ := buf_append_wf l.buf [32] hwf
    have hsz := buf_append_size_le l.buf [32]
    have hlen : (buf_append l.buf [32]).length = l.buf.length + 1 := by
      simpa using buf_append_length l.buf [32]
    refine ⟨⟨?_, ?_, ?_⟩, ?_⟩
    · simp only [comlin_edit_refresh_pos, comlin_edit_refresh_buf, hlen]
      omega
    · simpa using ha1
    · simpa [memmove_length] using ha2
    · simpa using hsz

lemma comlin_edit_backspace_wf (l : ComlinState) (h : BufWf l) :
    BufWf (comlin_edit_backspace l).1 ∧
      l.buf.size ≤ (comlin_edit_backspace l).1.buf.size := by
  obtain ⟨hpos, hlt, hdl⟩ := h
  unfold comlin_edit_backspace
  split
  · refine ⟨⟨?_, ?_, ?_⟩, ?_⟩ <;>
      simp [comlin_edit_refresh_buf, comlin_edit_refresh_pos,
            memmove_length, hdl] <;>
      omega
  · exact ⟨⟨hpos, hlt, hdl⟩, le_refl _⟩

lemma comlin_edit_delete_wf (l : ComlinState) (h : BufWf l) :
    BufWf (comlin_edit_delete l).1 ∧
      l.buf.size ≤ (comlin_edit_delete l).1.buf.size := by
  obtain ⟨hpos, hlt, hdl⟩ := h
  unfold comlin_edit_delete
  split
  · refine ⟨⟨?_, ?_, ?_⟩, ?_⟩ <;>
      simp [comlin_edit_refresh_buf, comlin_edit_refresh_pos,
            memmove_length, hdl] <;>
      omega
  · exact ⟨⟨hpos, hlt, hdl⟩, le_refl _⟩

lemma applyEditOp_wf (l : ComlinState) (op : EditOp) (h : BufWf l) :
    BufWf (applyEditOp l op) ∧ l.buf.size ≤ (applyEditOp l op).buf.size := by
  cases op with
  | insert c => exact comlin_edit_insert_wf l c h
  | backspace => exact comlin_edit_backspace_wf l h
  | delete => exact comlin_edit_delete_wf l h

/-- C1: for every sequence of insert, backspace and delete-forward edit
operations applied to a well-formed line buffer, the state after the
sequence is again well formed — in particular the cursor offset is at
most the buffer length and the buffer length is below the allocated
capacity — and the capacity never shrinks.  Since the sequence is
arbitrary, the invariant holds after every prefix, that is, after every
operation. -/
theorem edit_ops_preserve_buffer_invariants (l : ComlinState) (ops : List EditOp)
    (h : BufWf l) :
    BufWf (runEditOps l ops) ∧ l.buf.size ≤ (runEditOps l ops).buf.size := by
  induction ops generalizing l with
  | nil => exact ⟨h, le_refl _⟩
  | cons op rest ih =>
    have h1 := applyEditOp_wf l op h
    have h2 := ih (applyEditOp l op) h1.1
    exact ⟨h2.1, le_trans h1.2 h2.2⟩

/-- Witness for C1 at a concrete buffer and operation sequence. -/
theorem edit_ops_preserve_buffer_invariants_witness :
    BufWf (runEditOps midInsertState
            [.insert 88, .backspace, .insert 120, .delete, .insert 121]) ∧
      midInsertState.buf.size
        ≤ (runEditOps midInsertState
            [.insert 88, .backspace, .insert 120, .delete, .insert 121]).buf.size :=
  edit_ops_preserve_buffer_invariants midInsertState
    [.insert 88, .backspace, .insert 120, .delete, .insert 121] (by decide)

/-! ### Null termination after a mid-line insert (claim C9) -/

/-- C9: the mid-line insert path of `comlin_edit_insert` breaks the
null-termination invariant.  Inserting `X` (0x58) into the buffer `ab`
at cursor offset 1 leaves the tracked length at 3 but the byte at index
3 equal to 0x20 (the space appended by `buf_append` before the shift):
the `memmove` count `l->buf.length - l->pos` is taken after `buf_append`
already incremented the length, so it copies one byte too many and
clobbers the terminator.  The text accessor consequently returns
`aXb ` (with a trailing space) instead of `aXb`. -/
theorem mid_insert_clobbers_terminator :
    (comlin_edit_insert midInsertState 88).1.buf.length = 3 ∧
      (comlin_edit_insert midInsertState 88).1.buf.data = [97, 88, 98, 32] ∧
      (comlin_edit_insert midInsertState 88).1.buf.data.getD 3 0 ≠ 0 ∧
      comlin_text (comlin_edit_insert midInsertState 88).1 = [97, 88, 98, 32] := by
  decide

/-! ### Dispatch of bytes at and above 0x20 (claim C3) -/

/-- C3: with `char` signed, a byte at or above 0x80 is not inserted
literally: `c < 0x20` holds for its negative `char` value, so
`comlin_edit_control` is reached and indexes the 32-entry handler table
at `(unsigned)c`, far out of bounds (modelled as `none`).  For byte 0xC3
the index is 4294967235.  Bytes 0x20..0x7E are dispatched to the insert
path as the claim states. -/
theorem high_byte_reaches_control_table_out_of_bounds :
    comlin_edit_feed sampleBase [195] = none ∧
      charToUnsigned (signedChar 195) = 4294967235 ∧
      ¬ charToUnsigned (signedChar 195) < 32 ∧
      (comlin_edit_feed sampleBase [104]).map (fun r => comlin_text r.1)
        = some [104] := by
  decide

/-! ### Idempotence of edit_stop (claim C7) -/

/-- C7 counterexample: calling `comlin_edit_stop` twice writes two
newlines, so the terminal output of two calls differs from the output of
one call — the observable effect is not the same. -/
theorem edit_stop_not_output_idempotent :
    ((comlin_edit_stop sampleBase).2.1
        ++ (comlin_edit_stop (comlin_edit_stop sampleBase).1).2.1)
      ≠ (comlin_edit_stop sampleBase).2.1 := by
  decide

/-- C7 amended: a second `comlin_edit_stop` leaves the session state
exactly as the first call left it and returns the same status, but each
call writes one more trailing newline (raw mode itself is left
idempotently). -/
theorem edit_stop_state_idempotent (l : ComlinState) :
    (comlin_edit_stop (comlin_edit_stop l).1).1 = (comlin_edit_stop l).1 ∧
      (comlin_edit_stop (comlin_edit_stop l).1).2.2 = (comlin_edit_stop l).2.2 ∧
      (comlin_edit_stop (comlin_edit_stop l).1).2.1 = [10] ∧
      (comlin_edit_stop (comlin_edit_stop l).1).1.rawmode = false := by
  unfold comlin_edit_stop
  by_cases h : l.rawmode <;> simp [h]

/-! ### History stepping (claim C6) -/

/-- C6: with history `["a","b","c"]` and the live bottom entry `""`
(scroll index 0), two history-previous steps show `b` and a following
history-next shows `c`; a history step is a no-op when fewer than two
entries exist; and a move clamped at either boundary leaves the
displayed buffer unchanged and writes nothing (no redraw). -/
theorem history_step_scenario_and_clamping :
    (comlin_text scenC1 = [99] ∧ comlin_text scenC2 = [98] ∧
        comlin_text scenC3 = [99]) ∧
      (∀ (l : ComlinState) (d : ComlinHistoryDirection), l.history.length ≤ 1 →
        comlin_edit_history_step l d = (l, [], .editing)) ∧
      (∀ l : ComlinState, 1 < l.history.length → l.history_index = 0 →
        (comlin_edit_history_step l .next).1.buf = l.buf ∧
          (comlin_edit_history_step l .next).2.1 = []) ∧
      (∀ l : ComlinState, 1 < l.history.length →
        l.history_index = l.history.length - 1 →
        (comlin_edit_history_step l .prev).1.buf = l.buf ∧
          (comlin_edit_history_step l .prev).2.1 = []) := by
  refine ⟨by decide, ?_, ?_, ?_⟩
  · intro l d hle
    unfold comlin_edit_history_step
    rw [if_neg (by omega)]
  · intro l hgt hidx
    unfold comlin_edit_history_step
    rw [if_pos hgt, if_pos ⟨rfl, hidx⟩]
    exact ⟨rfl, rfl⟩
  · intro l hgt hidx
    unfold comlin_edit_history_step
    rw [if_pos hgt]
    have hne : ¬ (ComlinHistoryDirection.prev = .next ∧ l.history_index = 0) := by
      rintro ⟨h, -⟩
      exact absurd h (by decide)
    rw [if_neg hne]
    dsimp only
    rw [if_pos (by simp [hidx]; omega)]
    exact ⟨rfl, rfl⟩

/-! ### History add, eviction and persistence (claims C5 and C4) -/

lemma history_add_below_capacity (maxLen : Nat) (pre : List (List Nat))
    (e : List Nat) (hcap : pre.length < maxLen)
    (hlast : pre.getLast? ≠ some e) :
    comlin_history_add maxLen pre e = pre ++ [e] := by
  unfold comlin_history_add
  rw [if_neg (by omega), if_neg hlast, if_neg (by omega)]

lemma history_add_fill (maxLen : Nat) (entries pre : List (List Nat))
    (hlen : pre.length + entries.length ≤ maxLen)
    (hchain : List.Chain' (· ≠ ·) (pre ++ entries)) :
    entries.foldl (comlin_history_add maxLen) pre = pre ++ entries := by
  induction entries generalizing pre with
  | nil => simp
  | cons e rest ih =>
    have hlast : pre.getLast? ≠ some e := by
      intro hsome
      have := (List.chain'_append.mp hchain).2.2
      exact this e hsome e rfl rfl
    have hstep : comlin_history_add maxLen pre e = pre ++ [e] :=
      history_add_below_capacity maxLen pre e (by simp at hlen; omega) hlast
    rw [List.foldl_cons, hstep, ih (pre ++ [e]) (by simp at hlen ⊢; omega)
          (by simpa using hchain)]
    simp

/-- C5: adding `max_len + 1` pairwise-distinct lines to an initially
empty history leaves exactly `max_len` entries, namely the last
`max_len` lines added in their original order (the oldest line is
evicted). -/
theorem history_add_eviction_fifo (maxLen : Nat) (lines : List (List Nat))
    (hpos : 0 < maxLen) (hlen : lines.length = maxLen + 1)
    (hdist : List.Pairwise (· ≠ ·) lines) :
    lines.foldl (comlin_history_add maxLen) [] = lines.drop 1 ∧
      (lines.foldl (comlin_history_add maxLen) []).length = maxLen := by
  have hne : lines ≠ [] := by
    intro h
    rw [h] at hlen
    simp at hlen
  obtain ⟨front, lastE, hsplit⟩ :
      ∃ front lastE, lines = front ++ [lastE] :=
    ⟨lines.dropLast, lines.getLast hne, (List.dropLast_append_getLast hne).symm⟩
  have hfrontlen : front.length = maxLen := by
    rw [hsplit] at hlen
    simp at hlen
    omega
  have hfrontchain : List.Chain' (· ≠ ·) front := by
    have : List.Pairwise (· ≠ ·) front := by
      rw [hsplit] at hdist
      exact (List.pairwise_append.mp hdist).1
    exact this.chain'
  have hfill : front.foldl (comlin_history_add maxLen) [] = front := by
    simpa using history_add_fill maxLen front [] (by simp [hfrontlen]) (by simpa)
  have hlastne : front.getLast? = some lastE → False := by
    intro hsome
    have hmem : lastE ∈ front := by
      obtain ⟨hh, heq⟩ :=
        List.mem_getLast?_eq_getLast (Option.mem_def.mpr hsome)
      rw [heq]
      exact List.getLast_mem hh
    have := (List.pairwise_append.mp (hsplit ▸ hdist)).2.2
    exact this lastE hmem lastE (by simp) rfl
  have hadd : comlin_history_add maxLen front lastE = front.drop 1 ++ [lastE] := by
    unfold comlin_history_add
    rw [if_neg (by omega), if_neg hlastne, if_pos hfrontlen]
  constructor
  · rw [hsplit, List.foldl_append, hfill]
    simp only [List.foldl_cons, List.foldl_nil, hadd]
    rw [List.drop_append_of_le_length (by omega)]
  · rw [hsplit, List.foldl_append, hfill]
    simp only [List.foldl_cons, List.foldl_nil, hadd]
    simp [hfrontlen]
    omega

/-- Witness for C5 with `max_len = 2` and lines `a`, `b`, `c`. -/
theorem history_add_eviction_fifo_witness :
    [[97], [98], [99]].foldl (comlin_history_add 2) [] = [[98], [99]] ∧
      ([[97], [98], [99]].foldl (comlin_history_add 2) []).length = 2 :=
  history_add_eviction_fifo 2 [[97], [98], [99]] (by decide) (by decide)
    (by decide)

/-- C4 counterexample: a history consisting of the single empty entry
(which `comlin_history_add` accepts, and which `comlin_edit_start`
creates as the live entry) does not round-trip: `comlin_history_save`
writes nothing for an empty entry, so a fresh load yields the empty
history rather than `[""]`, although no entry contains a newline. -/
theorem history_roundtrip_drops_empty_entry :
    comlin_history_load 2 [] (comlin_history_save [[]]) ≠ [[]] := by
  decide

lemma history_load_loop_cons (maxLen : Nat) (h : List (List Nat))
    (buf : List Nat) (c : Nat) (rest : List Nat) :
    comlin_history_load_loop maxLen h buf (c :: rest)
      = if c = 10 ∧ buf ≠ [] then
          comlin_history_load_loop maxLen (comlin_history_add maxLen h buf)
            [] rest
        else if 32 ≤ signedChar c ∧ c % 256 ≠ 127 then
          comlin_history_load_loop maxLen h (buf ++ [c]) rest
        else
          comlin_history_load_loop maxLen h buf rest := rfl

lemma history_load_loop_printable (maxLen : Nat) (h : List (List Nat))
    (e : List Nat) (he : ∀ c ∈ e, 32 ≤ c ∧ c < 127) (buf rest : List Nat)
    (hne : buf ++ e ≠ []) :
    comlin_history_load_loop maxLen h buf (e ++ 10 :: rest)
      = comlin_history_load_loop maxLen (comlin_history_add maxLen h (buf ++ e))
          [] rest := by
  induction e generalizing buf with
  | nil =>
    simp only [List.nil_append, List.append_nil] at hne ⊢
    rw [history_load_loop_cons, if_pos ⟨rfl, hne⟩]
  | cons c e' ih =>
    obtain ⟨hc1, hc2⟩ := he c (by simp)
    have hsc : signedChar c = (c : Int) := by
      unfold signedChar
      rw [Nat.mod_eq_of_lt (by omega), if_pos (by omega)]
    rw [List.cons_append, history_load_loop_cons,
        if_neg (by rintro ⟨hc, -⟩; omega),
        if_pos ⟨by rw [hsc]; exact_mod_cast hc1,
                by rw [Nat.mod_eq_of_lt (by omega)]; omega⟩,
        ih (fun d hd => he d (by simp [hd])) (buf ++ [c]) (by simp)]
    simp

lemma history_load_save (maxLen : Nat) (entries : List (List Nat))
    (hclean : ∀ e ∈ entries, CleanEntry e) (acc : List (List Nat)) :
    comlin_history_load_loop maxLen acc [] (comlin_history_save entries)
      = entries.foldl (comlin_history_add maxLen) acc := by
  induction entries generalizing acc with
  | nil => rfl
  | cons e rest ih =>
    obtain ⟨hne, hpr⟩ := hclean e (by simp)
    have hsave : comlin_history_save (e :: rest)
        = e ++ 10 :: comlin_history_save rest := by
      unfold comlin_history_save
      rw [List.map_cons, List.flatten_cons,
          if_pos (by simpa using hne)]
      simp
    rw [hsave,
        history_load_loop_printable maxLen acc e hpr [] (comlin_history_save rest)
          (by simpa using hne),
        List.nil_append,
        ih (fun d hd => hclean d (by simp [hd]))]
    rfl

/-- C4 amended: `comlin_history_save` followed by a fresh session's
`comlin_history_load` with the same `max_len` reproduces the same
ordered entries, provided the entries are nonempty, consist only of
bytes 0x20..0x7E (the load filter drops control bytes, DEL and — with
`char` signed — all bytes at or above 0x80, and the save loop writes
nothing for an empty entry), no two adjacent entries are equal (the load
path re-runs duplicate suppression), and the entry count is within
`max_len` (as it always is for a session's own history). -/
theorem history_save_load_roundtrip (maxLen : Nat) (entries : List (List Nat))
    (hclean : ∀ e ∈ entries, CleanEntry e)
    (hchain : List.Chain' (· ≠ ·) entries)
    (hlen : entries.length ≤ maxLen) :
    comlin_history_load maxLen [] (comlin_history_save entries) = entries := by
  unfold comlin_history_load
  rw [history_load_save maxLen entries hclean []]
  simpa using history_add_fill maxLen entries [] (by simpa) (by simpa)

/-- Witness for C4 on the two-entry history `["hi","a"]` with
`max_len = 3`. -/
theorem history_save_load_roundtrip_witness :
    comlin_history_load 3 [] (comlin_history_save [[104, 105], [97]])
      = [[104, 105], [97]] :=
  history_save_load_roundtrip 3 [[104, 105], [97]] (by decide)
    (by simp [List.chain'_cons]) (by decide)

/-! ### Multi-line refresh row arithmetic (claim C2) -/

lemma code_rows_eq_ceilDiv (a c : Nat) (hc : 0 < c) :
    (a + c - 1) / c = ceilDiv a c := by
  unfold ceilDiv
  rcases Nat.eq_zero_or_pos a with rfl | ha
  · have hz : (c - 1) / c = 0 := Nat.div_eq_of_lt (by omega)
    simp [hz]
  · have h1 : a + c - 1 = (a - 1) + c := by omega
    have h2 : a = (a - 1) + 1 := by omega
    rw [h1, Nat.add_div_right _ hc]
    by_cases hd : c ∣ a
    · rw [if_pos (Nat.dvd_iff_mod_eq_zero.mp hd)]
      conv_rhs => rw [h2, Nat.succ_div]
      rw [if_pos (by rw [← h2]; exact hd)]
    · rw [if_neg (fun hm => hd (Nat.dvd_iff_mod_eq_zero.mpr hm))]
      conv_rhs => rw [h2, Nat.succ_div]
      rw [if_neg (by rw [← h2]; exact hd)]

@[simp] lemma upTotal_nil : upTotal [] = 0 := rfl

@[simp] lemma upTotal_cons_text (s : List Nat) (rest : List Item) :
    upTotal (.text s :: rest) = upTotal rest := by
  simp [upTotal]

@[simp] lemma upTotal_cons_vtesc (n : Nat) (sfx : Char) (rest : List Item) :
    upTotal (.vtesc n sfx :: rest) = (if sfx = 'A' then n else 0) + upTotal rest := by
  simp [upTotal]

@[simp] lemma upTotal_append (a b : List Item) :
    upTotal (a ++ b) = upTotal a + upTotal b := by
  simp [upTotal]

@[simp] lemma upTotal_append_line_text (t : List Nat) (n : Nat) (m : Bool)
    (rest : List Item) :
    upTotal (append_line_text t n m :: rest) = upTotal rest := by
  unfold append_line_text
  split <;> simp

@[simp] lemma upTotal_ite_cuf (P : Prop) [Decidable P] (k : Nat) :
    upTotal (if P then [Item.vtesc k 'C'] else []) = 0 := by
  split <;> simp

@[simp] lemma upTotal_ite_text (P : Prop) [Decidable P] (s : List Nat) :
    upTotal (if P then [Item.text s] else []) = 0 := by
  split <;> simp

/-- C2 counterexample: in multi-line write with `columns = 4`, an empty
prompt, content `ab` and the cursor at offset 0, the code's cursor
target row is `(plen + pos + cols) / cols = 1` (one-based, floor plus
one), not the ceiling formula `ceil((plen + pos) / cols) = 0`, so the
emitted cursor-up movement is 0 while the claim's formula demands
`rows - target = 1 - 0 = 1`. -/
theorem multi_line_cursor_row_not_ceiling :
    upTotal (refresh_multi_line mlRowState REFRESH_WRITE).2
      ≠ ceilDiv (mlRowState.plen + mlRowState.buf.length) mlRowState.cols
          - ceilDiv (mlRowState.plen + mlRowState.pos) mlRowState.cols := by
  decide

/-- C2 amended: in a multi-line write refresh with `columns > 0`, the
tracked row count equals `ceil((plen + content_length) / cols)` plus one
extra row exactly in the wrap-boundary case (cursor at the end of a
nonempty line with `(pos + plen)` a multiple of `cols`), and the emitted
cursor-up movement equals that row count minus the one-based target row
`(plen + pos) / cols + 1` — floor division plus one, which differs from
the ceiling formula whenever `plen + pos` is a multiple of `cols`. -/
theorem multi_line_write_row_math (l : ComlinState) (hc : 0 < l.cols) :
    (refresh_multi_line l REFRESH_WRITE).1.oldrows
      = ceilDiv (l.plen + l.buf.length) l.cols
          + (if l.pos ≠ 0 ∧ l.pos = l.buf.length ∧ (l.pos + l.plen) % l.cols = 0
             then 1 else 0) ∧
    upTotal (refresh_multi_line l REFRESH_WRITE).2
      = (refresh_multi_line l REFRESH_WRITE).1.oldrows
          - ((l.plen + l.pos) / l.cols + 1) := by
  have hflag : (REFRESH_WRITE &&& REFRESH_WRITE ≠ 0) = True := by decide
  have hclean : (REFRESH_WRITE &&& REFRESH_CLEAN ≠ 0) = False := by decide
  have hrows := code_rows_eq_ceilDiv (l.plen + l.buf.length) l.cols hc
  have hrpos2 : (l.plen + l.pos + l.cols) / l.cols = (l.plen + l.pos) / l.cols + 1 :=
    Nat.add_div_right _ hc
  unfold refresh_multi_line
  simp only [hflag, hclean, true_and, if_true, if_false, eq_self_iff_true]
  constructor
  · dsimp only
    split
    · rw [hrows]
    · rw [hrows]
      simp
  · dsimp only
    simp only [itemCR, itemEL0, upTotal_append, upTotal_cons_text, upTotal_nil,
               upTotal_append_line_text, upTotal_ite_cuf, upTotal_ite_text,
               hrpos2]
    split
    · -- wrap-boundary case: rows = rows0 + 1
      split
      · rename_i hgt
        simp
      · rename_i hle
        simp only [upTotal_nil]
        omega
    · split
      · rename_i hgt
        simp
      · rename_i hle
        simp only [upTotal_nil]
        omega

/-- Witness for C2 at `columns = 4`, prompt length 0, content `ab`,
cursor 0. -/
theorem multi_line_write_row_math_witness :
    (refresh_multi_line mlRowState REFRESH_WRITE).1.oldrows
      = ceilDiv (mlRowState.plen + mlRowState.buf.length) mlRowState.cols
          + (if mlRowState.pos ≠ 0 ∧ mlRowState.pos = mlRowState.buf.length ∧
                (mlRowState.pos + mlRowState.plen) % mlRowState.cols = 0
             then 1 else 0) ∧
    upTotal (refresh_multi_line mlRowState REFRESH_WRITE).2
      = (refresh_multi_line mlRowState REFRESH_WRITE).1.oldrows
          - ((mlRowState.plen + mlRowState.pos) / mlRowState.cols + 1) :=
  multi_line_write_row_math mlRowState (by decide)

/-! ### Zero-count movement sequences (claim C8) -/

lemma refresh_multi_line_vtesc_pos (l : ComlinState) (flags : Nat) (n : Nat)
    (sfx : Char) (hmem : Item.vtesc n sfx ∈ (refresh_multi_line l flags).2) :
    0 < n := by
  unfold refresh_multi_line at hmem
  dsimp only at hmem
  rcases List.mem_append.mp hmem with h | h
  · -- clean phase
    by_cases hcf : flags &&& REFRESH_CLEAN ≠ 0
    · rw [if_pos hcf] at h
      rcases List.mem_append.mp h with h1 | h1
      · by_cases hgt : l.oldrows > (l.plen + l.oldpos + l.cols) / l.cols
        · rw [if_pos hgt] at h1
          simp at h1
          omega
        · rw [if_neg hgt] at h1
          simp at h1
      · obtain ⟨lst, hlst, hx⟩ := List.mem_flatten.mp h1
        rw [List.eq_of_mem_replicate hlst] at hx
        simp [cleanRow, itemCR, itemEL0] at hx
        omega
    · rw [if_neg hcf] at h
      simp at h
  · -- write phase
    by_cases hwf : flags &&& REFRESH_WRITE ≠ 0
    · rw [if_pos hwf] at h
      rcases List.mem_append.mp h with h1 | h1
      · rcases List.mem_append.mp h1 with h2 | h2
        · rcases List.mem_append.mp h2 with h3 | h3
          · simp [itemCR, itemEL0, append_line_text] at h3
            exact absurd h3 (by split <;> simp)
          · split at h3 <;> simp at h3
        · split at h2 <;> (simp at h2; try omega)
      · rcases List.mem_append.mp h1 with h2 | h2
        · simp [itemCR] at h2
        · split at h2 <;> (simp at h2; try omega)
    · rw [if_neg hwf] at h
      simp at h

lemma refresh_single_line_vtesc (l : ComlinState) (flags : Nat) (n : Nat)
    (sfx : Char) (hmem : Item.vtesc n sfx ∈ refresh_single_line l flags) :
    flags &&& REFRESH_WRITE ≠ 0 ∧ sfx = 'C' ∧
      n = l.pos - (if l.plen + l.pos ≥ l.cols then l.plen + l.pos + 1 - l.cols
                   else 0)
            + l.plen := by
  unfold refresh_single_line at hmem
  dsimp only at hmem
  by_cases hwf : flags &&& REFRESH_WRITE ≠ 0
  · simp only [if_pos hwf] at hmem
    simp [itemCR, itemEL0, append_line_text] at hmem
    rcases hmem with h | h
    · exact absurd h (by split <;> simp)
    · exact ⟨hwf, h.2, h.1⟩
  · simp only [if_neg hwf] at hmem
    simp [itemCR, itemEL0] at hmem

lemma refresh_single_line_cuf_mem (l : ComlinState) (flags : Nat)
    (hwf : flags &&& REFRESH_WRITE ≠ 0) :
    Item.vtesc
        (l.pos - (if l.plen + l.pos ≥ l.cols then l.plen + l.pos + 1 - l.cols
                  else 0)
          + l.plen) 'C'
      ∈ refresh_single_line l flags := by
  unfold refresh_single_line
  dsimp only
  simp [hwf]

/-- C8 counterexample: with an empty prompt and the cursor at offset 0,
the single-line refresh emits the cursor-forward sequence `ESC [ 0 C` —
a cursor-movement escape sequence with a count of zero. -/
theorem single_line_emits_zero_count_cuf :
    Item.vtesc 0 'C' ∈ (refresh_line_with_flags sampleBase REFRESH_ALL).2 := by
  decide

/-- C8 amended: a zero-count cursor-movement sequence is emitted if and
only if the refresh is single-line, the write flag is set, the prompt is
empty, and the cursor offset is 0 or the terminal has a single column
with the window slid — and then the sequence is the final unconditional
cursor-forward `ESC [ 0 C`.  In particular multi-line refresh never
emits a zero-count movement, for any flags. -/
theorem refresh_zero_count_movement_characterized (l : ComlinState)
    (flags : Nat) (hc : 0 < l.cols) (sfx : Char) :
    Item.vtesc 0 sfx ∈ (refresh_line_with_flags l flags).2 ↔
      l.mlmode = false ∧ sfx = 'C' ∧ flags &&& REFRESH_WRITE ≠ 0 ∧
        l.plen = 0 ∧ (l.pos = 0 ∨ (l.cols = 1 ∧ l.cols ≤ l.pos)) := by
  unfold refresh_line_with_flags
  constructor
  · intro hmem
    by_cases hml : l.mlmode
    · rw [if_pos hml] at hmem
      exact absurd (refresh_multi_line_vtesc_pos l flags 0 sfx hmem) (by omega)
    · rw [if_neg hml] at hmem
      obtain ⟨hwf, hsfx, hn⟩ := refresh_single_line_vtesc l flags 0 sfx hmem
      refine ⟨by simpa using hml, hsfx, hwf, ?_⟩
      by_cases hge : l.plen + l.pos ≥ l.cols
      · rw [if_pos hge] at hn
        exact ⟨by omega, Or.inr ⟨by omega, by omega⟩⟩
      · rw [if_neg hge] at hn
        exact ⟨by omega, Or.inl (by omega)⟩
  · rintro ⟨hml, rfl, hwf, hplen, hcond⟩
    rw [if_neg (by simp [hml])]
    have hcount :
        l.pos - (if l.plen + l.pos ≥ l.cols then l.plen + l.pos + 1 - l.cols
                 else 0)
            + l.plen = 0 := by
      rcases hcond with hpos | ⟨hone, hle⟩
      · rw [if_neg (by omega)]
        omega
      · rw [if_pos (by omega)]
        omega
    have := refresh_single_line_cuf_mem l flags hwf
    rwa [hcount] at this

/-- Witness for C8 at the concrete session that does emit `ESC [ 0 C`. -/
theorem refresh_zero_count_movement_characterized_witness :
    Item.vtesc 0 'C' ∈ (refresh_line_with_flags sampleBase REFRESH_ALL).2 ↔
      sampleBase.mlmode = false ∧ 'C' = 'C' ∧
        REFRESH_ALL &&& REFRESH_WRITE ≠ 0 ∧ sampleBase.plen = 0 ∧
        (sampleBase.pos = 0 ∨
          (sampleBase.cols = 1 ∧ sampleBase.cols ≤ sampleBase.pos)) :=
  refresh_zero_count_movement_characterized sampleBase REFRESH_ALL (by decide)
    'C'

/-! ### Frame conditions of the per-byte dispatch (claim C10) -/

@[simp] lemma comlin_edit_move_left_history (l : ComlinState) :
    (comlin_edit_move_left l).1.history = l.history := by
  unfold comlin_edit_move_left
  split <;> simp

@[simp] lemma comlin_edit_move_right_history (l : ComlinState) :
    (comlin_edit_move_right l).1.history = l.history := by
  unfold comlin_edit_move_right
  split <;> simp

@[simp] lemma comlin_edit_move_home_history (l : ComlinState) :
    (comlin_edit_move_home l).1.history = l.history := by
  unfold comlin_edit_move_home
  split <;> simp

@[simp] lemma comlin_edit_move_end_history (l : ComlinState) :
    (comlin_edit_move_end l).1.history = l.history := by
  unfold comlin_edit_move_end
  split <;> simp

@[simp] lemma comlin_edit_transpose_history (l : ComlinState) :
    (comlin_edit_transpose l).1.history = l.history := by
  unfold comlin_edit_transpose
  split <;> simp

@[simp] lemma comlin_edit_backspace_history (l : ComlinState) :
    (comlin_edit_backspace l).1.history = l.history := by
  unfold comlin_edit_backspace
  split <;> simp

@[simp] lemma comlin_edit_delete_history (l : ComlinState) :
    (comlin_edit_delete l).1.history = l.history := by
  unfold comlin_edit_delete
  split <;> simp

@[simp] lemma comlin_edit_insert_history (l : ComlinState) (c : Nat) :
    (comlin_edit_insert l c).1.history = l.history := by
  unfold comlin_edit_insert
  split
  · dsimp only
    split
    · rfl
    · simp
  · simp

@[simp] lemma comlin_edit_clear_line_forwards_history (l : ComlinState) :
    (comlin_edit_clear_line_forwards l).1.history = l.history := by
  unfold comlin_edit_clear_line_forwards
  split <;> simp

@[simp] lemma comlin_edit_clear_line_backwards_history (l : ComlinState) :
    (comlin_edit_clear_line_backwards l).1.history = l.history := by
  unfold comlin_edit_clear_line_backwards
  split <;> simp

@[simp] lemma comlin_edit_delete_prev_word_history (l : ComlinState) :
    (comlin_edit_delete_prev_word l).1.history = l.history := by
  unfold comlin_edit_delete_prev_word
  simp

@[simp] lemma comlin_edit_clear_screen_history (l : ComlinState) :
    (comlin_edit_clear_screen l).1.history = l.history := by
  unfold comlin_edit_clear_screen
  simp

@[simp] lemma comlin_edit_history_step_history_length (l : ComlinState)
    (d : ComlinHistoryDirection) :
    (comlin_edit_history_step l d).1.history.length = l.history.length := by
  unfold comlin_edit_history_step
  dsimp only
  split_ifs <;> simp

@[simp] lemma comlin_edit_history_step_status (l : ComlinState)
    (d : ComlinHistoryDirection) :
    (comlin_edit_history_step l d).2.2 = .editing := by
  unfold comlin_edit_history_step
  dsimp only
  split_ifs <;> simp

@[simp] lemma comlin_edit_submit_status (l : ComlinState) :
    (comlin_edit_submit l).2.2 = .success := rfl

@[simp] lemma comlin_edit_submit_history (l : ComlinState) :
    (comlin_edit_submit l).1.history = l.history.dropLast := by
  unfold comlin_edit_submit comlin_edit_history_pop
  dsimp only
  split <;> simp

@[simp] lemma comlin_edit_move_left_status (l : ComlinState) :
    (comlin_edit_move_left l).2.2 = .editing := by
  unfold comlin_edit_move_left
  split <;> simp

@[simp] lemma comlin_edit_move_right_status (l : ComlinState) :
    (comlin_edit_move_right l).2.2 = .editing := by
  unfold comlin_edit_move_right
  split <;> simp

@[simp] lemma comlin_edit_move_home_status (l : ComlinState) :
    (comlin_edit_move_home l).2.2 = .editing := by
  unfold comlin_edit_move_home
  split <;> simp

@[simp] lemma comlin_edit_move_end_status (l : ComlinState) :
    (comlin_edit_move_end l).2.2 = .editing := by
  unfold comlin_edit_move_end
  split <;> simp

@[simp] lemma comlin_edit_delete_status (l : ComlinState) :
    (comlin_edit_delete l).2.2 = .editing := by
  unfold comlin_edit_delete
  split <;> simp

@[simp] lemma comlin_edit_history_prev_status (l : ComlinState) :
    (comlin_edit_history_prev l).2.2 = .editing :=
  comlin_edit_history_step_status l .prev

@[simp] lemma comlin_edit_history_next_status (l : ComlinState) :
    (comlin_edit_history_next l).2.2 = .editing :=
  comlin_edit_history_step_status l .next

@[simp] lemma comlin_edit_history_prev_history_length (l : ComlinState) :
    (comlin_edit_history_prev l).1.history.length = l.history.length :=
  comlin_edit_history_step_history_length l .prev

@[simp] lemma comlin_edit_history_next_history_length (l : ComlinState) :
    (comlin_edit_history_next l).1.history.length = l.history.length :=
  comlin_edit_history_step_history_length l .next

lemma comlin_edit_eof_status_ne_interrupted (l : ComlinState) :
    (comlin_edit_eof l).2.2 ≠ .interrupted := by
  unfold comlin_edit_eof
  split
  · simp
  · unfold comlin_edit_delete
    split <;> simp

lemma comlin_edit_read_escape_history_length (l : ComlinState)
    (input : List Nat) :
    (comlin_edit_read_escape l input).1.1.history.length
      = l.history.length := by
  rcases input with _ | ⟨s0, input1⟩
  · rfl
  rcases input1 with _ | ⟨s1, rest⟩
  · rfl
  rcases rest with _ | ⟨s2, rest'⟩ <;>
    · unfold comlin_edit_read_escape
      dsimp only
      split_ifs <;> simp

lemma comlin_edit_read_escape_status_ne_interrupted (l : ComlinState)
    (input : List Nat) :
    (comlin_edit_read_escape l input).1.2.2 ≠ .interrupted := by
  rcases input with _ | ⟨s0, input1⟩
  · simp [comlin_edit_read_escape]
  rcases input1 with _ | ⟨s1, rest⟩
  · simp [comlin_edit_read_escape]
  rcases rest with _ | ⟨s2, rest'⟩ <;>
    · unfold comlin_edit_read_escape
      dsimp only
      split_ifs <;> simp

@[simp] lemma comlin_edit_read_dumb_history (l : ComlinState) (c : Nat) :
    (comlin_edit_read_dumb l c).1.history = l.history := by
  unfold comlin_edit_read_dumb
  split_ifs <;> rfl

@[simp] lemma comlin_edit_interrupt_history (l : ComlinState) :
    (comlin_edit_interrupt l).1.history = l.history := rfl

@[simp] lemma comlin_edit_interrupt_status (l : ComlinState) :
    (comlin_edit_interrupt l).2.2 = .interrupted := rfl

lemma charToUnsigned_signedChar (b : Nat) :
    charToUnsigned (signedChar b)
      = if b % 256 < 128 then b % 256 else b % 256 + 4294967040 := by
  unfold charToUnsigned signedChar
  dsimp only
  split <;> omega

lemma comlin_edit_control_histframe (l : ComlinState) (c : Int)
    (input : List Nat) (r : EditResult × List Nat)
    (h : comlin_edit_control l c input = some r) :
    (r.1.2.2 = .interrupted → r.1.1.history = l.history) ∧
      (r.1.1.history.length < l.history.length →
        charToUnsigned c = 10 ∨ charToUnsigned c = 13 ∨
          (charToUnsigned c = 4 ∧ l.buf.length = 0)) := by
  unfold comlin_edit_control at h
  generalize hk : charToUnsigned c = k at h ⊢
  by_cases hidx : k < 32
  case neg =>
    rw [if_neg hidx] at h
    exact absurd h (by simp)
  rw [if_pos hidx] at h
  obtain rfl := (Option.some.injEq _ _).mp h
  clear h
  interval_cases k <;> dsimp only <;>
    first
    | (refine ⟨fun _ => ?_, fun hlen => absurd hlen ?_⟩
       · first
         | rfl
         | simp
       · simp)
    | (refine ⟨fun hst => absurd hst ?_, fun hlen => absurd hlen ?_⟩
       · simp
       · simp)
    | (refine ⟨fun hst => absurd hst ?_, fun _ => Or.inl rfl⟩
       simp)
    | (refine ⟨fun hst => absurd hst ?_, fun _ => Or.inr (Or.inl rfl)⟩
       simp)
    | (refine ⟨fun hst =>
           absurd hst (comlin_edit_read_escape_status_ne_interrupted l input),
         fun hlen => absurd hlen ?_⟩
       simp [comlin_edit_read_escape_history_length])
    | (refine ⟨fun hst =>
           absurd hst (comlin_edit_eof_status_ne_interrupted l), ?_⟩
       intro hlen
       by_cases hb : l.buf.length = 0
       · exact Or.inr (Or.inr ⟨rfl, hb⟩)
       · exfalso
         unfold comlin_edit_eof at hlen
         rw [if_neg hb] at hlen
         simp at hlen)

/-- C10: when `comlin_edit_feed` (normal or dumb mode, no completion
callback) returns `interrupted`, the history store is exactly unchanged
— in particular the transient live bottom entry is not popped — and more
generally the history can only shrink when the byte read is a commit
byte (LF 0x0A or CR 0x0D) or the EOF byte 0x04 with an empty buffer.
Out-of-bounds dispatches (bytes at or above 0x80) return no result at
all and are excluded by the hypothesis. -/
theorem feed_interrupted_leaves_history (l : ComlinState) (input : List Nat)
    (s' : ComlinState) (out : List Item) (st : ComlinStatus) (rest : List Nat)
    (h : comlin_edit_feed l input = some (s', out, st, rest)) :
    (st = .interrupted → s'.history = l.history) ∧
      (s'.history.length < l.history.length →
        ∃ b, input.head? = some b ∧
          (b % 256 = 10 ∨ b % 256 = 13 ∨
            (b % 256 = 4 ∧ l.buf.length = 0))) := by
  rcases input with _ | ⟨b, rest0⟩
  · unfold comlin_edit_feed at h
    obtain ⟨rfl, rfl, rfl, rfl⟩ :
        l = s' ∧ [] = out ∧ ComlinStatus.endOfInput = st ∧ [] = rest := by
      simpa using h
    exact ⟨fun _ => rfl, fun hlen => absurd hlen (by simp)⟩
  unfold comlin_edit_feed at h
  dsimp only at h
  by_cases hd : l.dumb
  · rw [if_pos hd] at h
    obtain ⟨rfl, rfl, rfl, rfl⟩ :
        (comlin_edit_read_dumb l (b % 256)).1 = s' ∧
          (comlin_edit_read_dumb l (b % 256)).2.1 = out ∧
          (comlin_edit_read_dumb l (b % 256)).2.2 = st ∧ rest0 = rest := by
      simpa using h
    exact ⟨fun _ => by simp, fun hlen => absurd hlen (by simp)⟩
  rw [if_neg hd] at h
  by_cases hlt : signedChar b < 32
  · rw [if_pos hlt] at h
    obtain ⟨r, hr, hmap⟩ := Option.map_eq_some'.mp h
    obtain ⟨rfl, rfl, rfl, rfl⟩ :
        r.1.1 = s' ∧ r.1.2.1 = out ∧ r.1.2.2 = st ∧ r.2 = rest := by
      simpa using hmap
    obtain ⟨hpart1, hpart2⟩ := comlin_edit_control_histframe l (signedChar b)
      rest0 r hr
    refine ⟨hpart1, fun hlen => ⟨b, rfl, ?_⟩⟩
    have hcu := charToUnsigned_signedChar b
    rcases hpart2 hlen with hc | hc | ⟨hc, hbuf⟩
    · rw [hcu] at hc
      left
      split at hc <;> omega
    · rw [hcu] at hc
      right
      left
      split at hc <;> omega
    · rw [hcu] at hc
      refine Or.inr (Or.inr ⟨?_, hbuf⟩)
      split at hc <;> omega
  · rw [if_neg hlt] at h
    by_cases hdel : b % 256 = 127
    · rw [if_pos hdel] at h
      obtain ⟨rfl, rfl, rfl, rfl⟩ :
          (comlin_edit_backspace l).1 = s' ∧
            (comlin_edit_backspace l).2.1 = out ∧
            (comlin_edit_backspace l).2.2 = st ∧ rest0 = rest := by
        simpa using h
      exact ⟨fun _ => by simp, fun hlen => absurd hlen (by simp)⟩
    · rw [if_neg hdel] at h
      obtain ⟨rfl, rfl, rfl, rfl⟩ :
          (comlin_edit_insert l (b % 256)).1 = s' ∧
            (comlin_edit_insert l (b % 256)).2.1 = out ∧
            (comlin_edit_insert l (b % 256)).2.2 = st ∧ rest0 = rest := by
        simpa using h
      exact ⟨fun _ => by simp, fun hlen => absurd hlen (by simp)⟩

/-- Witness for C10: feeding the interrupt byte 0x03 to a session whose
history holds one entry plus the live bottom entry. -/
theorem feed_interrupted_leaves_history_witness :
    (ComlinStatus.interrupted = .interrupted →
        liveHistState.history = liveHistState.history) ∧
      (liveHistState.history.length < liveHistState.history.length →
        ∃ b, ([3] : List Nat).head? = some b ∧
          (b % 256 = 10 ∨ b % 256 = 13 ∨
            (b % 256 = 4 ∧ liveHistState.buf.length = 0))) :=
  feed_interrupted_leaves_history liveHistState [3] liveHistState []
    .interrupted [] (by decide)

end Comlin
